import Mathlib

/-!
Verification of the task-orchestration core of the Universal-AI-Soul-Unlimited
repository. The definitions below are a shallow embedding of
`src/thinkmesh_core/orchestration/orchestrator.py`,
`src/thinkmesh_core/orchestration/task_router.py` and
`src/core/engines/coact_engine.py`: Python floats are modelled as rationals,
Python ints as integers, dictionaries as association lists in insertion
order, and the `async` agent calls as explicit outcome parameters.
-/

namespace ThinkMesh

/-- Orchestration strategies, from `OrchestrationStrategy` in orchestrator.py. -/
inductive OrchestrationStrategy where
  | SEQUENTIAL
  | PARALLEL
  | HIERARCHICAL
  | CONSENSUS
  | COMPETITIVE
  | COLLABORATIVE
  | ADAPTIVE
  deriving DecidableEq, Repr

/-- Task priority levels, from `TaskPriority` in orchestrator.py. -/
inductive TaskPriority where
  | CRITICAL
  | HIGH
  | NORMAL
  | LOW
  | BACKGROUND
  deriving DecidableEq, Repr

/-- Requirements carried by a task: the `requirements` dict of a `Task` in
orchestrator.py, of which the code reads the keys `specializations`
(`requirements.get('specializations', [])`) and `skills`
(`requirements.get('skills', {})`). -/
structure TaskRequirements where
  specializations : List String := []
  skills : List (String × ℚ) := []
  deriving DecidableEq, Repr

/-- Result dictionary built by `_execute_on_agent` on success (the
`timestamp` field, real wall-clock time, is not modelled). -/
structure ExecResult where
  status : String
  agent_id : String
  task_id : String
  deriving DecidableEq, Repr

/-- Task record, from the `Task` dataclass in orchestrator.py (`created_at`
and `deadline`, wall-clock values unused by the orchestration logic, are not
modelled). -/
structure Task where
  id : String
  type : String
  priority : TaskPriority := .NORMAL
  requirements : TaskRequirements := {}
  status : String := "pending"
  assigned_agents : List String := []
  result : Option ExecResult := none
  deriving DecidableEq, Repr

/-- Agent record, from the `AgentCapability` dataclass in orchestrator.py. -/
structure AgentCapability where
  agent_id : String
  specializations : List String
  performance_score : ℚ
  availability : Bool
  current_load : ℤ
  max_load : ℤ := 10
  skills : List (String × ℚ) := []
  deriving DecidableEq, Repr

/-- Outcome of one (simulated) agent execution: `success` is the normal path
of the `try` block in `_execute_on_agent`, `failure` the `except` path. -/
inductive ExecOutcome where
  | success
  | failure
  deriving DecidableEq, Repr

/-- Entry into `_execute_on_agent` (orchestrator.py line 457):
`agent.current_load += 1`. -/
def dispatchLoad (a : AgentCapability) : AgentCapability :=
  { a with current_load := a.current_load + 1 }

/-- Performance update of `_execute_on_agent`: on the success path
`performance_score = min(1.0, performance_score + 0.01)` (line 465), on the
exception path `performance_score = max(0.0, performance_score - 0.05)`
(line 482). -/
def updatePerformance (o : ExecOutcome) (a : AgentCapability) : AgentCapability :=
  match o with
  | .success => { a with performance_score := min 1 (a.performance_score + 1/100) }
  | .failure => { a with performance_score := max 0 (a.performance_score - 5/100) }

/-- Exit from `_execute_on_agent` (the `finally` block, line 486):
`agent.current_load -= 1`, run on both the success and the exception path. -/
def releaseLoad (a : AgentCapability) : AgentCapability :=
  { a with current_load := a.current_load - 1 }

/-- Net effect of one call to `_execute_on_agent` on the agent record:
increment the load, update the performance score according to the outcome,
then decrement the load in the `finally` block. -/
def execute_on_agent (a : AgentCapability) (o : ExecOutcome) : AgentCapability :=
  releaseLoad (updatePerformance o (dispatchLoad a))

/-- Eligibility test of `_find_suitable_agents` (orchestrator.py lines
428-441): skip the agent when it is unavailable or
`current_load >= max_load`; when the task requires specializations keep the
agent only if some required specialization is among the agent's; otherwise
keep it. -/
def suitableFilter (task : Task) (a : AgentCapability) : Bool :=
  if a.availability = false ∨ a.max_load ≤ a.current_load then false
  else if task.requirements.specializations = [] then true
  else task.requirements.specializations.any (fun s => a.specializations.contains s)

/-- Ranking key of `_find_suitable_agents` (line 446):
`performance_score * (1 - current_load / max_load)`. -/
def agentRankKey (a : AgentCapability) : ℚ :=
  a.performance_score * (1 - (a.current_load : ℚ) / (a.max_load : ℚ))

/-- Descending-by-key comparison used to model Python's stable
`list.sort(key=..., reverse=True)`: `a` may precede `b` iff `key b ≤ key a`,
so that equal keys preserve the original (registration) order. -/
def rankGE (a b : AgentCapability) : Prop := agentRankKey b ≤ agentRankKey a

instance : DecidableRel rankGE :=
  fun a b => inferInstanceAs (Decidable (agentRankKey b ≤ agentRankKey a))

/-- Embedding of `_find_suitable_agents` (orchestrator.py lines 423-451):
filter the registry, then stably sort by the ranking key in descending
order. Registry iteration order is `dict` insertion order, i.e. registration
order. -/
def findSuitableAgents (agents : List AgentCapability) (task : Task) :
    List AgentCapability :=
  (agents.filter (suitableFilter task)).insertionSort rankGE

/-- Coordinator lookup of `_hierarchical_routing` (orchestrator.py lines
288-293): the first registered agent advertising the specialization
`"coordinator"` or `"general"`, with no availability or load check. -/
def findCoordinator (agents : List AgentCapability) : Option AgentCapability :=
  agents.find?
    (fun a => a.specializations.contains "coordinator"
      || a.specializations.contains "general")

/-- Fields read out of the `capabilities` dict by `register_agent`
(orchestrator.py lines 113-117), with the defaults used there. -/
structure Capabilities where
  performance_score : ℚ := 1/2
  max_load : ℤ := 10
  skills : List (String × ℚ) := []
  deriving DecidableEq, Repr

/-- Agent record built by `register_agent`: always available with zero
initial load. -/
def mkRegisteredAgent (agent_id : String) (specializations : List String)
    (caps : Capabilities) : AgentCapability :=
  { agent_id := agent_id, specializations := specializations,
    performance_score := caps.performance_score, availability := true,
    current_load := 0, max_load := caps.max_load, skills := caps.skills }

/-- Assignment `self.agents[agent_id] = ...` on the registry dict: replace
an existing entry with the same key in place, otherwise append. -/
def registryInsert : List AgentCapability → AgentCapability → List AgentCapability
  | [], a => [a]
  | b :: rest, a =>
      if b.agent_id = a.agent_id then a :: rest else b :: registryInsert rest a

/-- Embedding of `register_agent` (orchestrator.py lines 102-126): store the
new agent record and return `True`; the body never raises, so the `except`
branch returning `False` is unreachable. -/
def register_agent (agents : List AgentCapability) (agent_id : String)
    (specializations : List String) (caps : Capabilities) :
    List AgentCapability × Bool :=
  (registryInsert agents (mkRegisteredAgent agent_id specializations caps), true)

/-- Eligibility test `TaskRouter._is_suitable` (task_router.py lines 37-50):
availability and specialization intersection only — no load check. -/
def routerIsSuitable (task : Task) (a : AgentCapability) : Bool :=
  if a.availability = false then false
  else if task.requirements.specializations = [] then true
  else task.requirements.specializations.any (fun s => a.specializations.contains s)

/-- Descending-by-`performance_score` comparison for `TaskRouter.route`,
again modelling a stable reverse sort. -/
def perfGE (a b : AgentCapability) : Prop :=
  b.performance_score ≤ a.performance_score

instance : DecidableRel perfGE :=
  fun a b => inferInstanceAs (Decidable (b.performance_score ≤ a.performance_score))

/-- Embedding of `TaskRouter.route` (task_router.py lines 19-35): filter by
`_is_suitable`, then `sorted(key=performance_score, reverse=True)`. -/
def routerRoute (task : Task) (agents : List AgentCapability) :
    List AgentCapability :=
  (agents.filter (routerIsSuitable task)).insertionSort perfGE

/-- Suitable-agent computation as the specification's words describe it
(spec §4.3 and claim C7): filter out unavailable agents and agents at
`current_load == max_load`, keep specialization matches, rank by
`performance_score * (1 - current_load/max_load)` descending with ties in
registration order. Stated separately from `findSuitableAgents` so the two
can be compared. -/
def claimedSuitable (task : Task) (a : AgentCapability) : Bool :=
  if a.availability = false ∨ a.current_load = a.max_load then false
  else if task.requirements.specializations = [] then true
  else task.requirements.specializations.any (fun s => a.specializations.contains s)

/-- Ranked routing as claimed by the spec, to be compared with
`findSuitableAgents` and `routerRoute`. -/
def claimedRoute (agents : List AgentCapability) (task : Task) :
    List AgentCapability :=
  (agents.filter (claimedSuitable task)).insertionSort rankGE

/-- Entry update of the `Counter` dict built in `_achieve_consensus`
(orchestrator.py line 535): counting one more occurrence of `r` increments
an existing entry in place and otherwise appends a fresh entry, preserving
first-insertion order of keys exactly as a Python `Counter` does. -/
def bump : List (String × ℕ) → String → List (String × ℕ)
  | [], r => [(r, 1)]
  | (k, n) :: rest, r =>
      if k = r then (k, n + 1) :: rest else (k, n) :: bump rest r

/-- Embedding of `Counter(str(r) for r in results)`: occurrence counts keyed
by string, keys in first-occurrence order. -/
def counter (l : List String) : List (String × ℕ) := l.foldl bump []

/-- One comparison step of `Counter.most_common(1)`: keep the current best
unless the candidate's count is strictly greater, which is what the stable
descending sort underlying `most_common` returns as its first element. -/
def chooseMax (best x : String × ℕ) : String × ℕ :=
  if best.2 < x.2 then x else best

/-- Embedding of `result_counter.most_common(1)[0]`: the first
maximal-count entry of the counter, `none` on an empty counter. -/
def mostCommon1 : List (String × ℕ) → Option (String × ℕ)
  | [] => none
  | kv :: rest => some (rest.foldl chooseMax kv)

/-- Embedding of `_achieve_consensus` (orchestrator.py lines 526-542):
return `None` on no results, otherwise stringify the results, count
occurrences, take the most common string and return the first original
result whose string equals it. -/
def achieveConsensus {α : Type} (toStr : α → String) (results : List α) :
    Option α :=
  if results.isEmpty then none
  else
    match mostCommon1 (counter (results.map toStr)) with
    | none => none
    | some kv => results.find? (fun r => toStr r == kv.1)

/-- Task-complexity tiers, from `TaskComplexity` in coact_engine.py. -/
inductive TaskComplexity where
  | SIMPLE
  | MODERATE
  | COMPLEX
  | VERY_COMPLEX
  deriving DecidableEq, Repr

/-- Automation-tier strategies, from `ExecutionStrategy` in coact_engine.py. -/
inductive ExecutionStrategy where
  | SEQUENTIAL
  | PARALLEL
  | HYBRID
  | ADAPTIVE
  deriving DecidableEq, Repr

/-- Keyword-to-weight table of `analyze_task_complexity` (coact_engine.py
lines 347-352). -/
def complexityKeywords : List (String × ℚ) :=
  [("analyze", 12/10), ("integrate", 15/10), ("coordinate", 18/10),
   ("optimize", 2), ("synthesize", 22/10), ("orchestrate", 25/10),
   ("multiple", 13/10), ("complex", 2), ("advanced", 17/10),
   ("simultaneous", 23/10), ("parallel", 18/10), ("sequential", 12/10)]

/-- Threshold chain of `analyze_task_complexity` (coact_engine.py lines
365-372): `<= 2.0` SIMPLE, `<= 4.0` MODERATE, `<= 6.0` COMPLEX, else
VERY_COMPLEX. -/
def complexityLevelOf (score : ℚ) : TaskComplexity :=
  if score ≤ 2 then .SIMPLE
  else if score ≤ 4 then .MODERATE
  else if score ≤ 6 then .COMPLEX
  else .VERY_COMPLEX

/-- Strategy table of `_recommend_strategy` (coact_engine.py lines 740-748). -/
def recommendStrategy : TaskComplexity → ExecutionStrategy
  | .SIMPLE => .SEQUENTIAL
  | .MODERATE => .PARALLEL
  | .COMPLEX => .HYBRID
  | .VERY_COMPLEX => .ADAPTIVE

/-- Dictionary returned by `analyze_task_complexity` (coact_engine.py lines
374-381). -/
structure ComplexityAnalysis where
  complexity_score : ℚ
  complexity_level : TaskComplexity
  indicators : List String
  estimated_steps : ℤ
  estimated_time : ℚ
  recommended_strategy : ExecutionStrategy
  deriving DecidableEq, Repr

/-- Tokenization `task_description.lower().split()`: lower-case, split on
whitespace runs, drop empty fragments. -/
def pyWords (s : String) : List String :=
  (s.toLower.split Char.isWhitespace).filter (fun w => w != "")

/-- Body of `analyze_task_complexity` (coact_engine.py lines 339-381) on the
token list: sum the weights of keyword hits collecting them as indicators,
add `1.0` (and the `"lengthy_description"` indicator) when there are more
than 20 tokens, then derive level, step and time estimates. Python's
`int(score * 2)` truncates toward zero, which equals the floor here because
the score is a sum of nonnegative weights. -/
def analyzeWords (words : List String) : ComplexityAnalysis :=
  let scored := words.foldl
    (fun (acc : ℚ × List String) w =>
      match complexityKeywords.lookup w with
      | some weight => (acc.1 + weight, acc.2 ++ [w])
      | none => acc)
    (0, [])
  let score := if words.length > 20 then scored.1 + 1 else scored.1
  let indicators :=
    if words.length > 20 then scored.2 ++ ["lengthy_description"] else scored.2
  { complexity_score := score,
    complexity_level := complexityLevelOf score,
    indicators := indicators,
    estimated_steps := max ⌊score * 2⌋ 3,
    estimated_time := score * 10,
    recommended_strategy := recommendStrategy (complexityLevelOf score) }

/-- Embedding of `analyze_task_complexity` on the raw description string. -/
def analyzeTaskComplexity (description : String) : ComplexityAnalysis :=
  analyzeWords (pyWords description)

/-- Result record of the CoAct engine, from the `CoActResult` dataclass in
coact_engine.py (`intermediate_results` is omitted: the adaptive cascade
never touches it). -/
structure CoActResult where
  task_id : String
  success : Bool
  execution_time : ℚ
  strategy_used : ExecutionStrategy
  steps_completed : ℤ
  total_steps : ℤ
  confidence : ℚ
  error_message : Option String := none
  deriving DecidableEq, Repr

/-- Embedding of `_execute_adaptive` (coact_engine.py lines 644-692). The
sub-executors `_execute_hybrid`, `_execute_parallel` and
`_execute_sequential` catch their own exceptions and always return a
`CoActResult`, so the cascade is a pure function of the three sub-results:
return the first successful one, else the last (sequential) failure, in all
cases overwriting `strategy_used` with ADAPTIVE. -/
def execute_adaptive (hy pa se : CoActResult) : CoActResult :=
  if hy.success then { hy with strategy_used := .ADAPTIVE }
  else if pa.success then { pa with strategy_used := .ADAPTIVE }
  else { se with strategy_used := .ADAPTIVE }

/-- Orchestrator bookkeeping state: the agent registry, the `active_tasks`
dict and the `completed_tasks` list (orchestrator.py lines 82-84). -/
structure OrchestratorState where
  agents : List AgentCapability
  active_tasks : List (String × Task)
  completed_tasks : List Task
  deriving DecidableEq, Repr

/-- Effect on the `active_tasks` dict of mutating the shared `Task` object
in place: every entry holding the task (keyed by its id) now shows the
updated record. -/
def updateActiveTask (acts : List (String × Task)) (t : Task) :
    List (String × Task) :=
  acts.map (fun p => if p.1 = t.id then (p.1, t) else p)

/-- Effect on the registry of mutating the shared `AgentCapability` object
in place. -/
def registryUpdate (agents : List AgentCapability) (a : AgentCapability) :
    List AgentCapability :=
  agents.map (fun b => if b.agent_id = a.agent_id then a else b)

/-- Embedding of `_complete_task` (orchestrator.py lines 544-549): delete
the task from `active_tasks` and append it to `completed_tasks`. -/
def complete_task (st : OrchestratorState) (t : Task) : OrchestratorState :=
  { st with
    active_tasks := st.active_tasks.filter (fun p => !(p.1 == t.id)),
    completed_tasks := st.completed_tasks ++ [t] }

/-- Result dict built on the success path of `_execute_on_agent`
(orchestrator.py lines 467-472). -/
def mkExecResult (agent_id task_id : String) : ExecResult :=
  { status := "success", agent_id := agent_id, task_id := task_id }

/-- Embedding of `_sequential_routing` (orchestrator.py lines 199-220): with
no suitable agent the task is marked `"failed"` and the function returns
without `_complete_task`; otherwise the best agent executes the task (an
execution failure propagates to `_route_task`, whose handler also just
marks the task `"failed"`), and on success the task is completed and
moved. -/
def sequential_routing (st : OrchestratorState) (t : Task) (o : ExecOutcome) :
    OrchestratorState :=
  match findSuitableAgents st.agents t with
  | [] =>
      { st with active_tasks :=
          updateActiveTask st.active_tasks { t with status := "failed" } }
  | best :: _ =>
      let agents' := registryUpdate st.agents (execute_on_agent best o)
      match o with
      | .failure =>
          { st with
            agents := agents',
            active_tasks := updateActiveTask st.active_tasks
              { t with
                assigned_agents := [best.agent_id],
                status := "failed" } }
      | .success =>
          let t' :=
            { t with
              assigned_agents := [best.agent_id],
              status := "completed",
              result := some (mkExecResult best.agent_id t.id) }
          complete_task
            { st with
              agents := agents',
              active_tasks := updateActiveTask st.active_tasks t' } t'

/-- Embedding of `_parallel_routing` (orchestrator.py lines 222-250): with
no suitable agent the task is marked `"failed"` and left in place;
otherwise up to three agents execute (failures are collected, not raised,
because of `return_exceptions=True`), the first success becomes the result,
and the task is completed and moved whether or not a success exists. -/
def parallel_routing (st : OrchestratorState) (t : Task)
    (outs : List ExecOutcome) : OrchestratorState :=
  match findSuitableAgents st.agents t with
  | [] =>
      { st with active_tasks :=
          updateActiveTask st.active_tasks { t with status := "failed" } }
  | suitable@(_ :: _) =>
      let selected := suitable.take 3
      let paired := selected.zip outs
      let agents' := paired.foldl
        (fun ags p => registryUpdate ags (execute_on_agent p.1 p.2)) st.agents
      let firstOk := paired.find? (fun p => p.2 == ExecOutcome.success)
      let res := firstOk.map (fun p => mkExecResult p.1.agent_id t.id)
      let t' :=
        { t with
          assigned_agents := selected.map (fun a => a.agent_id),
          status := if res.isSome then "completed" else "failed",
          result := res }
      complete_task
        { st with
          agents := agents',
          active_tasks := updateActiveTask st.active_tasks t' } t'

/-- Aggregate counts reported by the system-wide `get_status`
(orchestrator.py lines 581-602). -/
structure SystemStatus where
  total_agents : ℕ
  active_tasks : ℕ
  completed_tasks : ℕ
  deriving DecidableEq, Repr

/-- Embedding of the counting part of `get_status`. -/
def get_status (st : OrchestratorState) : SystemStatus :=
  { total_agents := st.agents.length,
    active_tasks := st.active_tasks.length,
    completed_tasks := st.completed_tasks.length }

lemma execute_on_agent_load (a : AgentCapability) (o : ExecOutcome) :
    (execute_on_agent a o).current_load = a.current_load := by
  cases o <;> simp [execute_on_agent, releaseLoad, updatePerformance, dispatchLoad]

lemma foldl_execute_load (outs : List ExecOutcome) (a : AgentCapability) :
    (outs.foldl execute_on_agent a).current_load = a.current_load := by
  induction outs generalizing a with
  | nil => rfl
  | cons o rest ih => simpa [execute_on_agent_load] using ih (execute_on_agent a o)

/-- C1: a dispatch through `_execute_on_agent` leaves `current_load`
unchanged once the call returns, whether the execution succeeds or fails,
and repeated dispatch/complete cycles never leak load. -/
theorem claim1_no_load_leak :
    (∀ (a : AgentCapability) (o : ExecOutcome),
        (execute_on_agent a o).current_load = a.current_load) ∧
    (∀ (a : AgentCapability) (outs : List ExecOutcome),
        (outs.foldl execute_on_agent a).current_load = a.current_load) := by
  exact ⟨execute_on_agent_load, fun a outs => foldl_execute_load outs a⟩

/-- C2: for an agent whose performance score lies in `[0,1]`, each execution
outcome moves the score to `min(1, score + 0.01)` on success and
`max(0, score - 0.05)` on failure, and the score stays within `[0,1]`. -/
theorem claim2_performance_update (a : AgentCapability) (o : ExecOutcome)
    (h0 : 0 ≤ a.performance_score) (h1 : a.performance_score ≤ 1) :
    (execute_on_agent a .success).performance_score
        = min 1 (a.performance_score + 1/100) ∧
    (execute_on_agent a .failure).performance_score
        = max 0 (a.performance_score - 5/100) ∧
    0 ≤ (execute_on_agent a o).performance_score ∧
    (execute_on_agent a o).performance_score ≤ 1 := by
  refine ⟨rfl, rfl, ?_, ?_⟩ <;> cases o <;>
    simp only [execute_on_agent, releaseLoad, updatePerformance, dispatchLoad]
  · positivity
  · exact le_max_left _ _
  · exact min_le_left _ _
  · have h2 : a.performance_score - 5/100 ≤ 1 := by linarith
    simp [max_le_iff, h2]

lemma suitableFilter_spec {task : Task} {a : AgentCapability}
    (h : suitableFilter task a = true) :
    a.availability = true ∧ a.current_load < a.max_load := by
  by_cases hc : a.availability = false ∨ a.max_load ≤ a.current_load
  · simp [suitableFilter, hc] at h
  · push_neg at hc
    refine ⟨?_, hc.2⟩
    cases hav : a.availability
    · exact absurd hav hc.1
    · rfl

lemma mem_findSuitableAgents {agents : List AgentCapability} {task : Task}
    {a : AgentCapability} (h : a ∈ findSuitableAgents agents task) :
    a ∈ agents ∧ suitableFilter task a = true := by
  have hm : a ∈ agents.filter (suitableFilter task) := by
    simpa [findSuitableAgents, List.mem_insertionSort] using h
  exact ⟨(List.mem_filter.mp hm).1, (List.mem_filter.mp hm).2⟩

/-- C3 (amended): the invariant `current_load ≤ max_load` is preserved by
dispatch to any agent selected by `_find_suitable_agents` (selection implies
a strict load bound), by completion, and by registration with nonnegative
`max_load`; hierarchical routing, which picks a coordinator without any load
check, is excluded (see the counterexample). -/
theorem claim3_load_invariant_amended (agents : List AgentCapability)
    (task : Task) (a : AgentCapability) (o : ExecOutcome) (agent_id : String)
    (specs : List String) (caps : Capabilities) :
    (a ∈ findSuitableAgents agents task → a.current_load < a.max_load) ∧
    (a.current_load < a.max_load →
      (dispatchLoad a).current_load ≤ (dispatchLoad a).max_load) ∧
    (a.current_load ≤ a.max_load →
      (releaseLoad (updatePerformance o a)).current_load
        ≤ (releaseLoad (updatePerformance o a)).max_load) ∧
    (0 ≤ caps.max_load →
      (mkRegisteredAgent agent_id specs caps).current_load
        ≤ (mkRegisteredAgent agent_id specs caps).max_load) := by
  refine ⟨fun h => (suitableFilter_spec (mem_findSuitableAgents h).2).2,
    fun h => ?_, fun h => ?_, fun h => ?_⟩
  · simp only [dispatchLoad]
    omega
  · cases o <;> simp only [releaseLoad, updatePerformance] <;> omega
  · simpa [mkRegisteredAgent] using h

/-- Witness for C3 (amended) at a one-agent registry. -/
theorem claim3_load_invariant_amended_witness :
    (⟨"w1", [], 1/2, true, 0, 10, []⟩ : AgentCapability).current_load <
      (⟨"w1", [], 1/2, true, 0, 10, []⟩ : AgentCapability).max_load :=
  (claim3_load_invariant_amended [⟨"w1", [], 1/2, true, 0, 10, []⟩]
    { id := "t", type := "general" } ⟨"w1", [], 1/2, true, 0, 10, []⟩
    .success "w1" [] {}).1 (by with_unfolding_all decide)

/-- Counterexample to C3 as stated: an agent at full load that advertises
the `"coordinator"` specialization satisfies the invariant, is nevertheless
the coordinator `_hierarchical_routing` selects, and the dispatch step of
`_execute_on_agent` pushes its `current_load` above `max_load`. -/
theorem claim3_counterexample :
    (⟨"c1", ["coordinator"], 1/2, true, 5, 5, []⟩ : AgentCapability).current_load
        ≤ (⟨"c1", ["coordinator"], 1/2, true, 5, 5, []⟩ : AgentCapability).max_load ∧
    findCoordinator [⟨"c1", ["coordinator"], 1/2, true, 5, 5, []⟩]
        = some ⟨"c1", ["coordinator"], 1/2, true, 5, 5, []⟩ ∧
    ¬ ((dispatchLoad ⟨"c1", ["coordinator"], 1/2, true, 5, 5, []⟩).current_load
        ≤ (dispatchLoad ⟨"c1", ["coordinator"], 1/2, true, 5, 5, []⟩).max_load) := by
  with_unfolding_all decide

/-- C9 (amended): `register_agent` always succeeds (returns `True`) — even
for `max_load ≤ 0` — but an agent registered with `max_load ≤ 0` starts at
`current_load = 0 ≥ max_load` and is therefore never selected by
`_find_suitable_agents`, so it is never dispatched as a worker through
suitable-agent routing. -/
theorem claim9_register_never_fails (agents : List AgentCapability)
    (agent_id : String) (specs : List String) (caps : Capabilities)
    (task : Task) (h : caps.max_load ≤ 0) :
    (register_agent agents agent_id specs caps).2 = true ∧
    mkRegisteredAgent agent_id specs caps ∉
      findSuitableAgents (register_agent agents agent_id specs caps).1 task := by
  refine ⟨rfl, fun hmem => ?_⟩
  have hlt := (suitableFilter_spec (mem_findSuitableAgents hmem).2).2
  simp only [mkRegisteredAgent] at hlt
  omega

/-- Witness for C9 (amended) at `max_load = 0`. -/
theorem claim9_register_never_fails_witness :
    mkRegisteredAgent "a1" [] { performance_score := 1/2, max_load := 0, skills := [] } ∉
      findSuitableAgents
        (register_agent [] "a1" []
          { performance_score := 1/2, max_load := 0, skills := [] }).1
        { id := "t", type := "general" } :=
  (claim9_register_never_fails [] "a1" []
    { performance_score := 1/2, max_load := 0, skills := [] }
    { id := "t", type := "general" } (by decide)).2

/-- Counterexample to C9 as stated: registering an agent whose capabilities
carry `max_load = 0` does not fail — the call returns `True` and stores the
agent in the registry. -/
theorem claim9_counterexample :
    (register_agent [] "a1" []
        { performance_score := 1/2, max_load := 0, skills := [] }).2 = true ∧
    (register_agent [] "a1" []
        { performance_score := 1/2, max_load := 0, skills := [] }).1
      = [mkRegisteredAgent "a1" []
          { performance_score := 1/2, max_load := 0, skills := [] }] := by
  with_unfolding_all decide

/-- C7 (amended): on any registry satisfying `current_load ≤ max_load`, the
orchestrator's `_find_suitable_agents` computes exactly the routing the
claim describes (filter out unavailable and at-capacity agents, keep
specialization matches, rank by `performance_score * (1 - load/max)`
descending, ties in registration order — the output is sorted by the key
and every tied pair keeps its filter order); the standalone
`TaskRouter.route` does not (see the counterexample). -/
theorem claim7_routing_amended (agents : List AgentCapability) (task : Task)
    (hinv : ∀ a ∈ agents, a.current_load ≤ a.max_load) :
    findSuitableAgents agents task = claimedRoute agents task ∧
    (findSuitableAgents agents task).Sorted rankGE ∧
    (∀ x y : AgentCapability,
      List.Sublist [x, y] (agents.filter (suitableFilter task)) →
      agentRankKey x = agentRankKey y →
      List.Sublist [x, y] (findSuitableAgents agents task)) := by
  refine ⟨?_, ?_, ?_⟩
  · unfold findSuitableAgents claimedRoute
    congr 1
    apply List.filter_congr
    intro a ha
    unfold suitableFilter claimedSuitable
    have h := hinv a ha
    by_cases hav : a.availability = false
    · simp [hav]
    · by_cases heq : a.current_load = a.max_load
      · have hle : a.max_load ≤ a.current_load := le_of_eq heq.symm
        simp [hav, heq, hle]
      · have hnle : ¬ a.max_load ≤ a.current_load := by omega
        simp [hav, heq, hnle]
  · haveI : IsTotal AgentCapability rankGE := ⟨fun a b => le_total _ _⟩
    haveI : IsTrans AgentCapability rankGE :=
      ⟨fun _ _ _ h1 h2 => le_trans h2 h1⟩
    exact List.sorted_insertionSort rankGE _
  · intro x y hsub hkey
    exact List.pair_sublist_insertionSort (le_of_eq hkey.symm) hsub

/-- Witness for C7 (amended) at a two-agent registry. -/
theorem claim7_routing_amended_witness :
    findSuitableAgents
        [⟨"a1", [], 3/5, true, 1, 3, []⟩, ⟨"a2", [], 2/5, true, 0, 3, []⟩]
        { id := "t", type := "general" }
      = claimedRoute
        [⟨"a1", [], 3/5, true, 1, 3, []⟩, ⟨"a2", [], 2/5, true, 0, 3, []⟩]
        { id := "t", type := "general" } :=
  (claim7_routing_amended
    [⟨"a1", [], 3/5, true, 1, 3, []⟩, ⟨"a2", [], 2/5, true, 0, 3, []⟩]
    { id := "t", type := "general" } (by decide)).1

/-- Counterexample to C7 as stated: `TaskRouter.route` keeps an agent that
sits at `current_load == max_load` and ranks by `performance_score` alone,
so on a registry with an at-capacity high-performance agent it differs from
the claimed computation. -/
theorem claim7_counterexample :
    routerRoute { id := "t", type := "general" }
        [⟨"a1", [], 3/5, true, 3, 3, []⟩, ⟨"a2", [], 2/5, true, 0, 3, []⟩]
      = [⟨"a1", [], 3/5, true, 3, 3, []⟩, ⟨"a2", [], 2/5, true, 0, 3, []⟩] ∧
    claimedRoute
        [⟨"a1", [], 3/5, true, 3, 3, []⟩, ⟨"a2", [], 2/5, true, 0, 3, []⟩]
        { id := "t", type := "general" }
      = [⟨"a2", [], 2/5, true, 0, 3, []⟩] ∧
    routerRoute { id := "t", type := "general" }
        [⟨"a1", [], 3/5, true, 3, 3, []⟩, ⟨"a2", [], 2/5, true, 0, 3, []⟩]
      ≠ claimedRoute
        [⟨"a1", [], 3/5, true, 3, 3, []⟩, ⟨"a2", [], 2/5, true, 0, 3, []⟩]
        { id := "t", type := "general" } := by
  refine ⟨?_, ?_, ?_⟩ <;> with_unfolding_all decide

/-- Witness for C2 at a concrete agent with score `1/2`. -/
theorem claim2_performance_update_witness :
    (execute_on_agent
        { agent_id := "a1", specializations := [], performance_score := 1/2,
          availability := true, current_load := 0, max_load := 10, skills := [] }
        .success).performance_score = min 1 ((1:ℚ)/2 + 1/100) := by
  exact (claim2_performance_update
    { agent_id := "a1", specializations := [], performance_score := 1/2,
      availability := true, current_load := 0, max_load := 10, skills := [] }
    .success (by norm_num) (by norm_num)).1

lemma bump_map_fst (acc : List (String × ℕ)) (r : String) :
    (bump acc r).map Prod.fst =
      if r ∈ acc.map Prod.fst then acc.map Prod.fst
      else acc.map Prod.fst ++ [r] := by
  induction acc with
  | nil => simp [bump]
  | cons kv rest ih =>
    obtain ⟨k, n⟩ := kv
    by_cases hk : k = r
    · subst hk
      simp [bump]
    · have hne : r ≠ k := fun h => hk h.symm
      by_cases hm : r ∈ rest.map Prod.fst <;>
        simp [bump, hk, hm, ih, hne]

lemma bump_lookup_self (acc : List (String × ℕ)) (r : String) :
    List.lookup r (bump acc r) = some ((List.lookup r acc).getD 0 + 1) := by
  induction acc with
  | nil => simp [bump, List.lookup]
  | cons kv rest ih =>
    obtain ⟨k, n⟩ := kv
    by_cases hk : k = r
    · subst hk
      simp [bump, List.lookup]
    · have hbeq : (r == k) = false := beq_eq_false_iff_ne.mpr fun h => hk h.symm
      simp [bump, hk, List.lookup, hbeq, ih]

lemma bump_lookup_ne (acc : List (String × ℕ)) {k r : String} (h : k ≠ r) :
    List.lookup k (bump acc r) = List.lookup k acc := by
  have hbr : (k == r) = false := beq_eq_false_iff_ne.mpr h
  induction acc with
  | nil => simp [bump, List.lookup, hbr]
  | cons kv rest ih =>
    obtain ⟨k', n⟩ := kv
    by_cases hk : k' = r
    · subst hk
      simp [bump, List.lookup, hbr]
    · by_cases hkk : k = k'
      · subst hkk
        simp [bump, hk, List.lookup]
      · have hbk : (k == k') = false := beq_eq_false_iff_ne.mpr hkk
        simp [bump, hk, List.lookup, hbk, ih]

lemma counter_append_singleton (l : List String) (r : String) :
    counter (l ++ [r]) = bump (counter l) r := by
  simp [counter, List.foldl_append]

lemma lookup_eq_none_iff_not_mem_keys (acc : List (String × ℕ)) (k : String) :
    List.lookup k acc = none ↔ k ∉ acc.map Prod.fst := by
  induction acc with
  | nil => simp [List.lookup]
  | cons kv rest ih =>
    obtain ⟨k', n⟩ := kv
    by_cases hkk : k = k'
    · subst hkk
      simp [List.lookup]
    · have hbk : (k == k') = false := beq_eq_false_iff_ne.mpr hkk
      simp [List.lookup, hbk, hkk, ih]

lemma counter_lookup (l : List String) (k : String) :
    List.lookup k (counter l) = if k ∈ l then some (l.count k) else none := by
  induction l using List.reverseRecOn with
  | nil => simp [counter]
  | append_singleton l r ih =>
    rw [counter_append_singleton]
    by_cases hk : k = r
    · subst hk
      rw [bump_lookup_self, ih]
      by_cases hm : k ∈ l
      · simp [hm, List.count_append, List.count_singleton]
      · simp [hm, List.count_append, List.count_singleton,
          List.count_eq_zero.mpr hm]
    · rw [bump_lookup_ne _ hk, ih]
      have hmm : k ∈ l ++ [r] ↔ k ∈ l := by simp [hk]
      by_cases hm : k ∈ l <;>
        simp [hm, hmm, List.count_append, List.count_singleton, Ne.symm hk, hk]

lemma mem_counter_keys (l : List String) (k : String) :
    k ∈ (counter l).map Prod.fst ↔ k ∈ l := by
  constructor
  · intro h
    by_contra hm
    have h2 : List.lookup k (counter l) = none := by simp [counter_lookup, hm]
    exact (lookup_eq_none_iff_not_mem_keys _ _).mp h2 h
  · intro h
    by_contra hk
    have h2 : List.lookup k (counter l) = none :=
      (lookup_eq_none_iff_not_mem_keys _ _).mpr hk
    rw [counter_lookup] at h2
    simp [h] at h2

lemma counter_keys_pairwise (l : List String) :
    ((counter l).map Prod.fst).Pairwise
      (fun a b => List.indexOf a l < List.indexOf b l) := by
  induction l using List.reverseRecOn with
  | nil => simp [counter]
  | append_singleton l r ih =>
    rw [counter_append_singleton, bump_map_fst]
    by_cases hm : r ∈ (counter l).map Prod.fst
    · simp only [hm, if_true]
      refine ih.imp_of_mem ?_
      intro a b ha hb hab
      rw [List.indexOf_append_of_mem ((mem_counter_keys l a).mp ha),
        List.indexOf_append_of_mem ((mem_counter_keys l b).mp hb)]
      exact hab
    · simp only [hm, if_false]
      have hrl : r ∉ l := fun h => hm ((mem_counter_keys l r).mpr h)
      rw [List.pairwise_append]
      refine ⟨ih.imp_of_mem ?_, by simp, ?_⟩
      · intro a b ha hb hab
        rw [List.indexOf_append_of_mem ((mem_counter_keys l a).mp ha),
          List.indexOf_append_of_mem ((mem_counter_keys l b).mp hb)]
        exact hab
      · intro a ha b hb
        have hb' : b = r := by simpa using hb
        subst hb'
        have hal : a ∈ l := (mem_counter_keys l a).mp ha
        rw [List.indexOf_append_of_mem hal,
          List.indexOf_append_of_not_mem hrl, List.indexOf_cons_self]
        have := List.indexOf_lt_length.mpr hal
        omega

lemma counter_keys_nodup (l : List String) :
    ((counter l).map Prod.fst).Nodup := by
  refine (counter_keys_pairwise l).imp ?_
  intro a b hab heq
  subst heq
  exact lt_irrefl _ hab

lemma lookup_of_mem_of_nodup {acc : List (String × ℕ)}
    (hnd : (acc.map Prod.fst).Nodup) {k : String} {n : ℕ}
    (h : (k, n) ∈ acc) : List.lookup k acc = some n := by
  induction acc with
  | nil => cases h
  | cons kv rest ih =>
    obtain ⟨k', n'⟩ := kv
    have hnd2 : (k' :: rest.map Prod.fst).Nodup := by simpa using hnd
    rcases List.mem_cons.mp h with heq | hmem
    · injection heq with h1 h2
      subst h1
      subst h2
      simp [List.lookup]
    · have hk : k ≠ k' := by
        intro he
        subst he
        exact (List.nodup_cons.mp hnd2).1
          (List.mem_map.mpr ⟨(k, n), hmem, rfl⟩)
      have hbk : (k == k') = false := beq_eq_false_iff_ne.mpr hk
      simp [List.lookup, hbk, ih (List.nodup_cons.mp hnd2).2 hmem]

lemma mem_of_lookup_eq_some {acc : List (String × ℕ)} {k : String} {n : ℕ}
    (h : List.lookup k acc = some n) : (k, n) ∈ acc := by
  induction acc with
  | nil => simp [List.lookup] at h
  | cons kv rest ih =>
    obtain ⟨k', n'⟩ := kv
    by_cases hk : k = k'
    · subst hk
      simp [List.lookup] at h
      simp [h]
    · have hbk : (k == k') = false := beq_eq_false_iff_ne.mpr hk
      simp [List.lookup, hbk] at h
      exact List.mem_cons.mpr (Or.inr (ih h))

lemma counter_count {l : List String} {k : String} {n : ℕ}
    (h : (k, n) ∈ counter l) : n = l.count k ∧ k ∈ l := by
  have hl := lookup_of_mem_of_nodup (counter_keys_nodup l) h
  rw [counter_lookup] at hl
  by_cases hm : k ∈ l
  · simp [hm] at hl
    exact ⟨hl.symm, hm⟩
  · simp [hm] at hl

lemma counter_mem_of_mem {l : List String} {k : String} (h : k ∈ l) :
    (k, l.count k) ∈ counter l :=
  mem_of_lookup_eq_some (by simp [counter_lookup, h])

lemma foldl_chooseMax_spec (R : (String × ℕ) → (String × ℕ) → Prop)
    (rest : List (String × ℕ)) :
    ∀ b : String × ℕ, (∀ x ∈ rest, R b x) → rest.Pairwise R →
      (rest.foldl chooseMax b = b ∨
        (rest.foldl chooseMax b ∈ rest ∧ b.2 < (rest.foldl chooseMax b).2)) ∧
      ∀ x ∈ rest, x.2 ≤ (rest.foldl chooseMax b).2 ∧
        (x.2 = (rest.foldl chooseMax b).2 →
          rest.foldl chooseMax b = x ∨ R (rest.foldl chooseMax b) x) := by
  induction rest with
  | nil =>
    intro b _ _
    exact ⟨Or.inl rfl, by simp⟩
  | cons x rest ih =>
    intro b hb hp
    rcases List.pairwise_cons.mp hp with ⟨hx, hp'⟩
    by_cases hlt : b.2 < x.2
    · have hstep : (x :: rest).foldl chooseMax b = rest.foldl chooseMax x := by
        simp [chooseMax, hlt]
      obtain ⟨hsel, hdom⟩ := ih x hx hp'
      rw [hstep]
      constructor
      · rcases hsel with he | hm
        · exact Or.inr ⟨by rw [he]; exact List.mem_cons_self _ _, by rw [he]; exact hlt⟩
        · exact Or.inr ⟨List.mem_cons.mpr (Or.inr hm.1), lt_trans hlt hm.2⟩
      · intro y hy
        rcases List.mem_cons.mp hy with rfl | hy'
        · constructor
          · rcases hsel with he | hm
            · rw [he]
            · exact le_of_lt hm.2
          · intro heq
            rcases hsel with he | hm
            · exact Or.inl he
            · exact absurd heq (Nat.ne_of_lt hm.2)
        · exact hdom y hy'
    · have hstep : (x :: rest).foldl chooseMax b = rest.foldl chooseMax b := by
        simp [chooseMax, hlt]
      obtain ⟨hsel, hdom⟩ :=
        ih b (fun y hy => hb y (List.mem_cons.mpr (Or.inr hy))) hp'
      rw [hstep]
      constructor
      · rcases hsel with he | hm
        · exact Or.inl he
        · exact Or.inr ⟨List.mem_cons.mpr (Or.inr hm.1), hm.2⟩
      · intro y hy
        rcases List.mem_cons.mp hy with rfl | hy'
        · have hxb : y.2 ≤ b.2 := le_of_not_lt hlt
          have hbm : b.2 ≤ (rest.foldl chooseMax b).2 := by
            rcases hsel with he | hm
            · rw [he]
            · exact le_of_lt hm.2
          refine ⟨le_trans hxb hbm, ?_⟩
          intro heq
          have hmb : rest.foldl chooseMax b = b := by
            rcases hsel with he | hm
            · exact he
            · exact absurd heq (by omega)
          rw [hmb]
          exact Or.inr (hb y (List.mem_cons.mpr (Or.inl rfl)))
        · exact hdom y hy'

lemma mostCommon1_spec {c : List (String × ℕ)}
    (R : (String × ℕ) → (String × ℕ) → Prop) (hp : c.Pairwise R)
    (hne : c ≠ []) :
    ∃ m, mostCommon1 c = some m ∧ m ∈ c ∧
      ∀ x ∈ c, x.2 ≤ m.2 ∧ (x.2 = m.2 → m = x ∨ R m x) := by
  cases c with
  | nil => exact absurd rfl hne
  | cons kv rest =>
    rcases List.pairwise_cons.mp hp with ⟨hx, hp'⟩
    obtain ⟨hsel, hdom⟩ := foldl_chooseMax_spec R rest kv hx hp'
    refine ⟨rest.foldl chooseMax kv, rfl, ?_, ?_⟩
    · rcases hsel with he | hm
      · rw [he]
        exact List.mem_cons_self _ _
      · exact List.mem_cons.mpr (Or.inr hm.1)
    · intro x hxc
      rcases List.mem_cons.mp hxc with rfl | hx'
      · constructor
        · rcases hsel with he | hm
          · rw [he]
          · exact le_of_lt hm.2
        · intro heq
          rcases hsel with he | hm
          · exact Or.inl he
          · exact absurd heq (Nat.ne_of_lt hm.2)
      · exact hdom x hx'

lemma find?_beq_self {l : List String} {k : String} (h : k ∈ l) :
    l.find? (fun r => r == k) = some k := by
  induction l with
  | nil => cases h
  | cons a rest ih =>
    by_cases ha : a = k
    · subst ha
      simp [List.find?]
    · have hbeq : (a == k) = false := beq_eq_false_iff_ne.mpr ha
      rcases List.mem_cons.mp h with he | hm
      · exact absurd he.symm ha
      · simp [List.find?, hbeq, ih hm]

lemma achieveConsensus_spec (l : List String) (hl : l ≠ []) :
    ∃ v, achieveConsensus id l = some v ∧ v ∈ l ∧
      (∀ w ∈ l, l.count w ≤ l.count v) ∧
      (∀ w ∈ l, l.count w = l.count v → List.indexOf v l ≤ List.indexOf w l) := by
  have hp : (counter l).Pairwise
      (fun p q => List.indexOf p.1 l < List.indexOf q.1 l) := by
    have h := counter_keys_pairwise l
    rw [List.pairwise_map] at h
    exact h
  have hcne : counter l ≠ [] := by
    cases l with
    | nil => exact absurd rfl hl
    | cons a rest =>
      intro h
      have : a ∈ (counter (a :: rest)).map Prod.fst :=
        (mem_counter_keys _ _).mpr (List.mem_cons_self _ _)
      rw [h] at this
      cases this
  obtain ⟨m, hm1, hm2, hm3⟩ := mostCommon1_spec _ hp hcne
  obtain ⟨hcount, hmem⟩ := counter_count hm2
  have hfind : l.find? (fun r => id r == m.1) = some m.1 := by
    simpa using find?_beq_self hmem
  refine ⟨m.1, ?_, hmem, ?_, ?_⟩
  · have hne : l.isEmpty = false := by
      cases l with
      | nil => exact absurd rfl hl
      | cons a rest => rfl
    rw [achieveConsensus, hne]
    simp only [Bool.false_eq_true, if_false, List.map_id, hm1]
    exact hfind
  · intro w hw
    have hwk := (hm3 _ (counter_mem_of_mem hw)).1
    rw [hcount] at hwk
    exact hwk
  · intro w hw heq
    have hw2 : ((w, l.count w) : String × ℕ).2 = m.2 := by
      rw [hcount]
      exact heq
    rcases (hm3 _ (counter_mem_of_mem hw)).2 hw2 with he | hlt
    · rw [he]
    · exact le_of_lt hlt

/-- C4: on any nonempty list of (string) results, `_achieve_consensus`
returns a result of maximal multiplicity, breaking ties in favour of the
value occurring first in the input, and on `["A","A","B","A","C"]` it
returns `"A"`. -/
theorem claim4_consensus :
    (∀ l : List String, l ≠ [] →
      ∃ v, achieveConsensus id l = some v ∧ v ∈ l ∧
        (∀ w ∈ l, l.count w ≤ l.count v) ∧
        (∀ w ∈ l, l.count w = l.count v →
          List.indexOf v l ≤ List.indexOf w l)) ∧
    achieveConsensus id ["A", "A", "B", "A", "C"] = some "A" := by
  exact ⟨achieveConsensus_spec, by decide⟩

/-- Witness for C4 at the five-result list of the claim. -/
theorem claim4_consensus_witness :
    ∃ v, achieveConsensus id ["A", "A", "B", "A", "C"] = some v ∧
      v ∈ ["A", "A", "B", "A", "C"] ∧
      (∀ w ∈ ["A", "A", "B", "A", "C"],
        List.count w ["A", "A", "B", "A", "C"]
          ≤ List.count v ["A", "A", "B", "A", "C"]) ∧
      (∀ w ∈ ["A", "A", "B", "A", "C"],
        List.count w ["A", "A", "B", "A", "C"]
            = List.count v ["A", "A", "B", "A", "C"] →
          List.indexOf v ["A", "A", "B", "A", "C"]
            ≤ List.indexOf w ["A", "A", "B", "A", "C"]) :=
  claim4_consensus.1 ["A", "A", "B", "A", "C"] (by decide)

/-- C5: the analyzer's tier is exactly `complexityLevelOf` of its score, the
thresholds are inclusive (`≤ 2` SIMPLE, `≤ 4` MODERATE, `≤ 6` COMPLEX, else
VERY_COMPLEX), a score of exactly `2.0` — realised by the description
`"optimize"` — yields SIMPLE, and a score of `2.01` yields MODERATE. -/
theorem claim5_complexity_thresholds :
    (∀ s : String,
      (analyzeTaskComplexity s).complexity_level
        = complexityLevelOf (analyzeTaskComplexity s).complexity_score) ∧
    (∀ q : ℚ, q ≤ 2 → complexityLevelOf q = .SIMPLE) ∧
    (∀ q : ℚ, 2 < q → q ≤ 4 → complexityLevelOf q = .MODERATE) ∧
    (∀ q : ℚ, 4 < q → q ≤ 6 → complexityLevelOf q = .COMPLEX) ∧
    (∀ q : ℚ, 6 < q → complexityLevelOf q = .VERY_COMPLEX) ∧
    (analyzeTaskComplexity "optimize").complexity_score = 2 ∧
    (analyzeTaskComplexity "optimize").complexity_level = .SIMPLE ∧
    complexityLevelOf (201/100) = .MODERATE := by
  refine ⟨fun s => rfl, ?_, ?_, ?_, ?_, ?_, ?_, ?_⟩
  · intro q h
    simp [complexityLevelOf, h]
  · intro q h1 h2
    have h3 : ¬ q ≤ 2 := not_le.mpr h1
    simp [complexityLevelOf, h3, h2]
  · intro q h1 h2
    have h3 : ¬ q ≤ 2 := by
      intro h
      linarith
    have h4 : ¬ q ≤ 4 := not_le.mpr h1
    simp [complexityLevelOf, h3, h4, h2]
  · intro q h1
    have h3 : ¬ q ≤ 2 := by
      intro h
      linarith
    have h4 : ¬ q ≤ 4 := by
      intro h
      linarith
    have h5 : ¬ q ≤ 6 := not_le.mpr h1
    simp [complexityLevelOf, h3, h4, h5]
  · with_unfolding_all decide
  · with_unfolding_all decide
  · norm_num [complexityLevelOf]

/-- Witness for C5 at the boundary score `2.01`. -/
theorem claim5_complexity_thresholds_witness :
    complexityLevelOf (201/100) = TaskComplexity.MODERATE :=
  claim5_complexity_thresholds.2.2.1 (201/100) (by norm_num) (by norm_num)

lemma foldl_keywords_none {ws : List String}
    (h : ∀ w ∈ ws, complexityKeywords.lookup w = none) (acc : ℚ × List String) :
    ws.foldl
      (fun (acc : ℚ × List String) w =>
        match complexityKeywords.lookup w with
        | some weight => (acc.1 + weight, acc.2 ++ [w])
        | none => acc) acc = acc := by
  induction ws generalizing acc with
  | nil => rfl
  | cons w rest ih =>
    have hw := h w (List.mem_cons_self _ _)
    simp only [List.foldl_cons, hw]
    exact ih (fun w' hw' => h w' (List.mem_cons.mpr (Or.inr hw'))) acc

/-- C6 (amended): a five-word description with no complexity keywords is
analyzed as SIMPLE with complexity score `0.0` (not `0.3`), below the `2.0`
threshold. -/
theorem claim6_keyword_free_amended (s : String)
    (h5 : (pyWords s).length = 5)
    (hkw : ∀ w ∈ pyWords s, complexityKeywords.lookup w = none) :
    (analyzeTaskComplexity s).complexity_score = 0 ∧
    (analyzeTaskComplexity s).complexity_level = .SIMPLE ∧
    (analyzeTaskComplexity s).complexity_score < 2 := by
  have hfold := foldl_keywords_none hkw (0, [])
  have hlen : ¬ ((pyWords s).length > 20) := by omega
  have hscore : (analyzeTaskComplexity s).complexity_score = 0 := by
    simp [analyzeTaskComplexity, analyzeWords, hfold, hlen]
  refine ⟨hscore, ?_, ?_⟩
  · have : (analyzeTaskComplexity s).complexity_level
        = complexityLevelOf (analyzeTaskComplexity s).complexity_score := rfl
    rw [this, hscore]
    norm_num [complexityLevelOf]
  · rw [hscore]
    norm_num

/-- Witness for C6 (amended) at a concrete five-word description. -/
theorem claim6_keyword_free_amended_witness :
    (analyzeTaskComplexity "open the door right now").complexity_level
      = TaskComplexity.SIMPLE :=
  (claim6_keyword_free_amended "open the door right now"
    (by with_unfolding_all decide) (by with_unfolding_all decide)).2.1

/-- Counterexample to C6 as stated: the five-word keyword-free description
`"open the door right now"` is analyzed with complexity score `0.0`, not
the claimed `0.3` (the `0.3` base lives in the separate TerminalBench
integration's 0-to-1 scale, not in `analyze_task_complexity`). -/
theorem claim6_counterexample :
    (analyzeTaskComplexity "open the door right now").complexity_score = 0 ∧
    (analyzeTaskComplexity "open the door right now").complexity_level
      = TaskComplexity.SIMPLE ∧
    (analyzeTaskComplexity "open the door right now").complexity_score
      ≠ 3/10 := by
  refine ⟨?_, ?_, ?_⟩ <;> with_unfolding_all decide

/-- C8: the automation-tier ADAPTIVE cascade tries HYBRID, then PARALLEL,
then SEQUENTIAL, returns the first success, else the last (sequential)
failure; the result always carries `strategy_used = ADAPTIVE`, and succeeds
whenever some sub-strategy succeeds. -/
theorem claim8_adaptive_cascade (hy pa se : CoActResult) :
    (execute_adaptive hy pa se).strategy_used = .ADAPTIVE ∧
    (hy.success = true →
      execute_adaptive hy pa se = { hy with strategy_used := .ADAPTIVE }) ∧
    (hy.success = false → pa.success = true →
      execute_adaptive hy pa se = { pa with strategy_used := .ADAPTIVE }) ∧
    (hy.success = false → pa.success = false →
      execute_adaptive hy pa se = { se with strategy_used := .ADAPTIVE }) ∧
    ((hy.success || pa.success || se.success) = true →
      (execute_adaptive hy pa se).success = true) := by
  cases hhy : hy.success <;> cases hpa : pa.success <;>
    simp [execute_adaptive, hhy, hpa]

/-- Witness for C8: HYBRID and PARALLEL fail, SEQUENTIAL succeeds, and the
cascade returns the sequential result restamped as ADAPTIVE. -/
theorem claim8_adaptive_cascade_witness :
    execute_adaptive
        ⟨"t1", false, 0, .HYBRID, 0, 3, 3/10, some "hybrid failed"⟩
        ⟨"t1", false, 0, .PARALLEL, 0, 3, 2/10, none⟩
        ⟨"t1", true, 0, .SEQUENTIAL, 3, 3, 85/100, none⟩
      = { (⟨"t1", true, 0, .SEQUENTIAL, 3, 3, 85/100, none⟩ : CoActResult) with
          strategy_used := .ADAPTIVE } :=
  (claim8_adaptive_cascade
    ⟨"t1", false, 0, .HYBRID, 0, 3, 3/10, some "hybrid failed"⟩
    ⟨"t1", false, 0, .PARALLEL, 0, 3, 2/10, none⟩
    ⟨"t1", true, 0, .SEQUENTIAL, 3, 3, 85/100, none⟩).2.2.2.1 rfl rfl

lemma lookup_updateActiveTask (acts : List (String × Task)) (t' : Task)
    (h : (List.lookup t'.id acts).isSome) :
    List.lookup t'.id (updateActiveTask acts t') = some t' := by
  induction acts with
  | nil => simp [List.lookup] at h
  | cons p rest ih =>
    obtain ⟨k', v⟩ := p
    by_cases hkk : t'.id = k'
    · subst hkk
      have hu : updateActiveTask ((t'.id, v) :: rest) t'
          = (t'.id, t') :: updateActiveTask rest t' := by
        simp [updateActiveTask]
      rw [hu]
      simp [List.lookup]
    · have hbk : (t'.id == k') = false := beq_eq_false_iff_ne.mpr hkk
      have hcond : ¬ (k' = t'.id) := fun he => hkk he.symm
      have hu : updateActiveTask ((k', v) :: rest) t'
          = (k', v) :: updateActiveTask rest t' := by
        simp [updateActiveTask, hcond]
      rw [hu]
      simp only [List.lookup, hbk]
      apply ih
      simpa [List.lookup, hbk] using h

/-- C10 (implicit claim): when routing finds no suitable agents, both the
sequential and the parallel routing paths mark the task `"failed"` but do
not relocate it — it stays in `active_tasks`, is never appended to
`completed_tasks`, and the system-wide status keeps counting it among
active tasks. -/
theorem claim10_routing_failure_keeps_task_active
    (st : OrchestratorState) (t : Task) (o : ExecOutcome)
    (outs : List ExecOutcome)
    (hact : List.lookup t.id st.active_tasks = some t)
    (hno : findSuitableAgents st.agents t = []) :
    (List.lookup t.id (sequential_routing st t o).active_tasks
        = some { t with status := "failed" } ∧
      (sequential_routing st t o).completed_tasks = st.completed_tasks ∧
      get_status (sequential_routing st t o) = get_status st) ∧
    (List.lookup t.id (parallel_routing st t outs).active_tasks
        = some { t with status := "failed" } ∧
      (parallel_routing st t outs).completed_tasks = st.completed_tasks ∧
      get_status (parallel_routing st t outs) = get_status st) := by
  have hsome : (List.lookup ({ t with status := "failed" } : Task).id
      st.active_tasks).isSome := by
    have he : List.lookup ({ t with status := "failed" } : Task).id
        st.active_tasks = some t := hact
    rw [he]
    rfl
  have hseq : sequential_routing st t o =
      { st with active_tasks :=
          updateActiveTask st.active_tasks { t with status := "failed" } } := by
    simp only [sequential_routing, hno]
  have hpar : parallel_routing st t outs =
      { st with active_tasks :=
          updateActiveTask st.active_tasks { t with status := "failed" } } := by
    simp only [parallel_routing, hno]
  rw [hseq, hpar]
  exact ⟨⟨lookup_updateActiveTask _ _ hsome, rfl,
      by simp [get_status, updateActiveTask]⟩,
    ⟨lookup_updateActiveTask _ _ hsome, rfl,
      by simp [get_status, updateActiveTask]⟩⟩

/-- Witness for C10 at a one-task state with an empty registry. -/
theorem claim10_routing_failure_keeps_task_active_witness :
    List.lookup "t1"
        (sequential_routing
          { agents := [],
            active_tasks := [("t1", { id := "t1", type := "general" })],
            completed_tasks := [] }
          { id := "t1", type := "general" } .success).active_tasks
      = some { ({ id := "t1", type := "general" } : Task) with
          status := "failed" } :=
  ((claim10_routing_failure_keeps_task_active
    { agents := [],
      active_tasks := [("t1", { id := "t1", type := "general" })],
      completed_tasks := [] }
    { id := "t1", type := "general" } .success []
    (by with_unfolding_all decide) (by with_unfolding_all decide)).1).1

end ThinkMesh
